import Mathlib

/-!
Shallow embedding of the agent core of `open-claude-code`
(`src/assistant.ts`, `src/tools.ts`, plugin loading) in Lean 4,
together with theorems settling the specification claims.

Strings are modelled as `List Char`.  JavaScript regular-expression
tests used by the source are modelled by a small regex language whose
constructors cover exactly the constructs the source patterns use
(literals, character classes, lazy star and plus of a class,
concatenation), with JS semantics for `.` (no line terminator) and
`\s` (ECMAScript WhiteSpace and LineTerminator sets).
-/

/-- Convert a Lean string literal to the `List Char` representation used
throughout the development. -/
def cs (s : String) : List Char := s.toList

/-- ECMAScript whitespace, the character set matched by `\s` in a JS
regex and stripped by `String.prototype.trim` (WhiteSpace together with
LineTerminator). -/
def jsWs (c : Char) : Bool :=
  c == ' ' || c == '\t' || c == '\n' || c == '\x0b' || c == '\x0c' ||
  c == '\r' || c == ' ' || c == Char.ofNat 0x1680 ||
  (0x2000 ≤ c.toNat && c.toNat ≤ 0x200a) ||
  c == Char.ofNat 0x2028 || c == Char.ofNat 0x2029 ||
  c == Char.ofNat 0x202f || c == Char.ofNat 0x205f ||
  c == Char.ofNat 0x3000 || c == Char.ofNat 0xfeff

/-- ECMAScript `.` (dot without the `s` flag): any character except a
LineTerminator. -/
def jsDot (c : Char) : Bool :=
  !(c == '\n' || c == '\r' || c == Char.ofNat 0x2028 || c == Char.ofNat 0x2029)

/-- `String.prototype.trim`: drop ECMAScript whitespace from both ends. -/
def jsTrim (s : List Char) : List Char :=
  ((s.dropWhile jsWs).reverse.dropWhile jsWs).reverse

/-- If `pat` is a literal prefix of `s`, return the remainder of `s`
after it. -/
def stripPrefixLit : List Char → List Char → Option (List Char)
  | [], s => some s
  | _ :: _, [] => none
  | p :: ps, c :: s => if p == c then stripPrefixLit ps s else none

/-- Split `s` around the leftmost occurrence of the literal `pat`:
`some (pre, post)` with `s = pre ++ pat ++ post`, or `none` when `pat`
does not occur in `s`. -/
def splitOnFirst (pat : List Char) : List Char → Option (List Char × List Char)
  | [] =>
    match stripPrefixLit pat [] with
    | some r => some ([], r)
    | none => none
  | c :: s =>
    match stripPrefixLit pat (c :: s) with
    | some r => some ([], r)
    | none =>
      match splitOnFirst pat s with
      | some (pre, post) => some (c :: pre, post)
      | none => none

/-- Remainders left after a lazy `cls*` consumes a prefix of `s`,
shortest-consumption first (JS lazy-star preference order). -/
def starRem (p : Char → Bool) : List Char → List (List Char)
  | [] => [[]]
  | c :: s => (c :: s) :: (if p c then starRem p s else [])

/-- The regex sublanguage used by the source's dangerous-command
patterns: literals, one-character classes, lazy star/plus of a class,
and concatenation. -/
inductive Regex where
  | lit : List Char → Regex
  | cls : (Char → Bool) → Regex
  | starCls : (Char → Bool) → Regex
  | plusCls : (Char → Bool) → Regex
  | cat : Regex → Regex → Regex

/-- Remainders of `s` after the regex matches some prefix of `s`. -/
def Regex.rem : Regex → List Char → List (List Char)
  | .lit p, s =>
    match stripPrefixLit p s with
    | some r => [r]
    | none => []
  | .cls _, [] => []
  | .cls f, c :: s => if f c then [s] else []
  | .starCls f, s => starRem f s
  | .plusCls _, [] => []
  | .plusCls f, c :: s => if f c then starRem f s else []
  | .cat r1 r2, s => (r1.rem s).flatMap r2.rem

/-- JS `RegExp.prototype.test`: the (unanchored) regex matches somewhere
in `s`. -/
def regexTest (r : Regex) (s : List Char) : Bool :=
  s.tails.any (fun t => !(r.rem t).isEmpty)

/-- The fixed risk-pattern list of `Assistant.isDangerousCommand`
(`src/assistant.ts` lines 270-281):
`rm\s+-rf`, `sudo`, `chmod`, `chown`, `dd\s+`, `mkfs`, `format`,
`>.*\/dev\/`, `curl.*\|.*sh`, `wget.*\|.*sh`. -/
def dangerousPatterns : List Regex :=
  [ .cat (.lit (cs "rm")) (.cat (.plusCls jsWs) (.lit (cs "-rf"))),
    .lit (cs "sudo"),
    .lit (cs "chmod"),
    .lit (cs "chown"),
    .cat (.lit (cs "dd")) (.plusCls jsWs),
    .lit (cs "mkfs"),
    .lit (cs "format"),
    .cat (.lit (cs ">")) (.cat (.starCls jsDot) (.lit (cs "/dev/"))),
    .cat (.lit (cs "curl"))
      (.cat (.starCls jsDot) (.cat (.lit (cs "|")) (.cat (.starCls jsDot) (.lit (cs "sh"))))),
    .cat (.lit (cs "wget"))
      (.cat (.starCls jsDot) (.cat (.lit (cs "|")) (.cat (.starCls jsDot) (.lit (cs "sh"))))) ]

/-- A parsed tool-parameter bag.  The source passes the object produced
by `JSON.parse`; the agent core reads only string-valued fields from it
(`params.command`, `params.file_path`, `params.message`), so the bag is
modelled as an association list from field name to string value. -/
abbrev PBag := List (List Char × List Char)

/-- Field access with JS `params.field || ''` defaulting: a missing
field (and an empty string, which `||` also replaces by `''`) yields the
empty string. -/
def PBag.getStr (b : PBag) (k : List Char) : List Char :=
  match b.find? (fun kv => kv.1 == k) with
  | some kv => kv.2
  | none => []

/-- The fixed denylist of `Assistant.isDangerousCommand`
(`src/assistant.ts` line 263). -/
def dangerousTools : List (List Char) :=
  [cs "execute_command", cs "write_file", cs "edit_file", cs "git_commit"]

/-- `Assistant.isDangerousCommand` (`src/assistant.ts` lines 260-287):
false unless confirmation mode is on; false for names outside the
denylist; for `execute_command`, true iff the command string matches at
least one risk pattern; true for the other denylisted tools. -/
def isDangerousCommand (requireConfirmation : Bool) (toolName : List Char)
    (params : PBag) : Bool :=
  if !requireConfirmation then false
  else if !(dangerousTools.contains toolName) then false
  else if toolName == cs "execute_command" then
    dangerousPatterns.any (fun pat => regexTest pat (params.getStr (cs "command")))
  else true

/-- Template-literal interpolation of a possibly-missing field:
JS renders an `undefined` field as the text `undefined`. -/
def PBag.interp (b : PBag) (k : List Char) : List Char :=
  match b.find? (fun kv => kv.1 == k) with
  | some kv => kv.2
  | none => cs "undefined"

/-- Outcome of a tool's `execute`: a `{success:true, output}` result, a
`{success:false, error}` result, or a thrown exception. -/
inductive ExecOutcome where
  | success (output : List Char)
  | failure (err : List Char)
  | thrown (msg : List Char)

/-- A registry entry (`Tool` in `src/tools.ts`): name, description, and
an execution function.  The free-text parameter hints are used only to
build the system prompt and are omitted. -/
structure Tool where
  name : List Char
  description : List Char
  execute : PBag → ExecOutcome

/-- A parsed tool invocation request (`Assistant.extractToolUses`
element). -/
structure ToolUse where
  name : List Char
  parameters : PBag
deriving DecidableEq

/-- `getAvailableTools` (`src/tools.ts` lines 1050-1054): the registry
is the built-in list followed by the plugin-sourced list,
`[...builtInTools, ...pluginTools]`. -/
def getAvailableTools (builtInTools pluginTools : List Tool) : List Tool :=
  builtInTools ++ pluginTools

/-- Registered name of a plugin-declared tool
(`PluginManager.loadPlugins`): the declared name under a fixed
`plugin_` prefix. -/
def mkPluginToolName (declared : List Char) : List Char :=
  cs "plugin_" ++ declared

/-- Tool lookup (`src/assistant.ts` line 204):
`this.tools.find((t) => t.name === toolUse.name)` — JS `Array.find`
returns the first matching element. -/
def findTool (tools : List Tool) (name : List Char) : Option Tool :=
  tools.find? (fun t => t.name == name)

/-- `Assistant.getToolConfirmationMessage` (`src/assistant.ts`
lines 289-300). -/
def getToolConfirmationMessage (toolName : List Char) (params : PBag) : List Char :=
  if toolName == cs "execute_command" then
    cs "Execute command: " ++ params.interp (cs "command")
  else if toolName == cs "write_file" then
    cs "Write file: " ++ params.interp (cs "file_path")
  else if toolName == cs "edit_file" then
    cs "Edit file: " ++ params.interp (cs "file_path")
  else if toolName == cs "git_commit" then
    cs "Git commit with message: " ++ params.interp (cs "message")
  else
    cs "Execute tool: " ++ toolName

/-- Message role tag. -/
inductive Role where
  | system
  | user
  | assistant
deriving DecidableEq

/-- `OllamaMessage`: one transcript turn. -/
structure OllamaMessage where
  role : Role
  content : List Char
deriving DecidableEq

/-- The mutable state of an `Assistant` instance that the agent loop
reads or writes: conversation history, usage counters, and the
configuration fields consulted by `chat` and `executeTool`. -/
structure AState where
  history : List OllamaMessage
  toolUseCount : Nat
  estimatedTokens : Nat
  tokenLimit : Option Nat
  requireConfirmation : Bool
  tools : List Tool

/-- The invocation is dangerous and an offered confirmation was
declined: `isDangerousCommand` holds, a callback is supplied, and it
answers false on the confirmation message (`src/assistant.ts`
lines 212-221).  With no callback the invocation proceeds. -/
def deniedBy (st : AState) (tu : ToolUse)
    (cb : Option (List Char → Bool)) : Bool :=
  isDangerousCommand st.requireConfirmation tu.name tu.parameters &&
    (match cb with
     | some f => !f (getToolConfirmationMessage tu.name tu.parameters)
     | none => false)

/-- `Assistant.executeTool` (`src/assistant.ts` lines 197-242): look the
tool up by name (first match); demand confirmation for a dangerous
invocation when a callback is supplied, answering denial with a
"cancelled by user" result; otherwise increment the tool-use counter and
run the tool, converting success, failure and thrown outcomes to their
respective result strings. -/
def executeTool (st : AState) (tu : ToolUse)
    (cb : Option (List Char → Bool)) : List Char × AState :=
  match findTool st.tools tu.name with
  | none => (cs "Error: Tool '" ++ tu.name ++ cs "' not found", st)
  | some tool =>
    if deniedBy st tu cb then
      (cs "Tool '" ++ tu.name ++ cs "' execution cancelled by user", st)
    else
      let st1 := { st with toolUseCount := st.toolUseCount + 1 }
      match tool.execute tu.parameters with
      | .success out =>
        (cs "Tool '" ++ tu.name ++ cs "' executed successfully:\n" ++ out, st1)
      | .failure err =>
        (cs "Tool '" ++ tu.name ++ cs "' failed:\n" ++ err, st1)
      | .thrown msg =>
        (cs "Tool '" ++ tu.name ++ cs "' error: " ++ msg, st1)

/-- The per-iteration batch loop of `Assistant.chat` (`src/assistant.ts`
lines 151-155): execute every parsed invocation in source order,
collecting one result string per invocation. -/
def runBatch (cb : Option (List Char → Bool)) :
    AState → List ToolUse → List (List Char) × AState
  | st, [] => ([], st)
  | st, tu :: rest =>
    let r := executeTool st tu cb
    let rs := runBatch cb r.2 rest
    (r.1 :: rs.1, rs.2)

/-- The tool-use block open marker. -/
def toolUseOpenT : List Char := cs "<tool_use>"

/-- The tool-use block close marker. -/
def toolUseCloseT : List Char := cs "</tool_use>"

/-- Fuel-driven block scan; the fuel only serves structural
termination and is irrelevant once it exceeds the input length. -/
def extractBlocksF : Nat → List Char → List (List Char)
  | 0, _ => []
  | fuel + 1, s =>
    match splitOnFirst toolUseOpenT s with
    | none => []
    | some (_, rest) =>
      match splitOnFirst toolUseCloseT rest with
      | none => []
      | some (content, rest2) => content :: extractBlocksF fuel rest2

/-- The block-discovery part of `Assistant.extractToolUses`
(`src/assistant.ts` line 173): the global non-greedy regex
`/<tool_use>([\s\S]*?)<\/tool_use>/g` yields the content between each
open marker and the nearest following close marker, scanning left to
right; an open marker with no following close marker ends the scan. -/
def extractBlocks (s : List Char) : List (List Char) :=
  extractBlocksF (s.length + 1) s

/-- Fuel-driven block removal; the fuel only serves structural
termination. -/
def removeBlocksF : Nat → List Char → List Char
  | 0, s => s
  | fuel + 1, s =>
    match splitOnFirst toolUseOpenT s with
    | none => s
    | some (pre, rest) =>
      match splitOnFirst toolUseCloseT rest with
      | none => s
      | some (_, rest2) => pre ++ removeBlocksF fuel rest2

/-- `Assistant.cleanResponse` block removal (`src/assistant.ts`
line 246): `text.replace(/<tool_use>[\s\S]*?<\/tool_use>/g, '')` —
each matched block (open marker, lazy body, close marker) is dropped,
everything else is kept. -/
def removeBlocks (s : List Char) : List Char :=
  removeBlocksF (s.length + 1) s

/-- `Assistant.cleanResponse` (`src/assistant.ts` lines 244-247):
strip all tool-use blocks, then trim. -/
def cleanResponse (s : List Char) : List Char :=
  jsTrim (removeBlocks s)

/-- Lazy scan of `(C*?)` up to the literal `closeT`, with `C` the
any-character class (`[\s\S]`, `allowNl = true`) or the dot class
(`allowNl = false`): at each position first try the close marker
(shortest match preferred), else consume one class character; a
character outside the class before any reachable close marker fails the
match at this start position. -/
def captureAfter (closeT : List Char) (allowNl : Bool) : List Char → Option (List Char)
  | [] =>
    match stripPrefixLit closeT [] with
    | some _ => some []
    | none => none
  | c :: s =>
    match stripPrefixLit closeT (c :: s) with
    | some _ => some []
    | none =>
      if allowNl || jsDot c then
        match captureAfter closeT allowNl s with
        | some cap => some (c :: cap)
        | none => none
      else none

/-- Leftmost match of `openT (C*?) closeT` in `s` (the sub-field
`exec` calls of `Assistant.extractToolUses`, lines 178-179), returning
the captured group: the earliest start position where the open marker
matches and a close marker is lazily reachable wins. -/
def findTagged (openT closeT : List Char) (allowNl : Bool) : List Char → Option (List Char)
  | [] =>
    match stripPrefixLit openT [] with
    | some rest => captureAfter closeT allowNl rest
    | none => none
  | c :: s =>
    match stripPrefixLit openT (c :: s) with
    | some rest =>
      match captureAfter closeT allowNl rest with
      | some cap => some cap
      | none => findTagged openT closeT allowNl s
    | none => findTagged openT closeT allowNl s

/-- The tool-name sub-field open marker. -/
def toolNameOpenT : List Char := cs "<tool_name>"

/-- The tool-name sub-field close marker. -/
def toolNameCloseT : List Char := cs "</tool_name>"

/-- The parameters sub-field open marker. -/
def paramsOpenT : List Char := cs "<parameters>"

/-- The parameters sub-field close marker. -/
def paramsCloseT : List Char := cs "</parameters>"

/-- Per-block parsing of `Assistant.extractToolUses` (`src/assistant.ts`
lines 177-191): the block contributes an invocation iff the name
sub-field matches (`/<tool_name>(.*?)<\/tool_name>/`, dot excludes line
terminators), the parameters sub-field matches
(`/<parameters>([\s\S]*?)<\/parameters>/`), and `JSON.parse` accepts the
trimmed parameters text; the name is trimmed.  `JSON.parse` is the JS
builtin, abstracted as the `jsonParse` argument. -/
def parseBlock (jsonParse : List Char → Option PBag) (content : List Char) :
    Option ToolUse :=
  match findTagged toolNameOpenT toolNameCloseT false content with
  | none => none
  | some nameCap =>
    match findTagged paramsOpenT paramsCloseT true content with
    | none => none
    | some paramsCap =>
      match jsonParse (jsTrim paramsCap) with
      | some bag => some { name := jsTrim nameCap, parameters := bag }
      | none => none

/-- `Assistant.extractToolUses` (`src/assistant.ts` lines 171-195):
well-formed blocks yield invocations in marker order; malformed blocks
are silently dropped. -/
def extractToolUses (jsonParse : List Char → Option PBag) (text : List Char) :
    List ToolUse :=
  (extractBlocks text).filterMap (parseBlock jsonParse)

/-- `Assistant.estimateTokens` (`src/assistant.ts` lines 317-320):
`Math.ceil(text.length / 4)`. -/
def estimateTokens (text : List Char) : Nat :=
  (text.length + 3) / 4

/-- `Assistant.updateTokenCount` (`src/assistant.ts` lines 322-327):
the estimated-token counter is the sum of the per-message estimates over
the whole history. -/
def updateTokenCount (st : AState) : AState :=
  { st with
      estimatedTokens := (st.history.map (fun m => estimateTokens m.content)).sum }

/-- `Assistant.checkTokenLimit` (`src/assistant.ts` lines 329-332):
`if (!this.tokenLimit) return true; return this.estimatedTokens <
this.tokenLimit;` — an absent limit and a configured limit of `0` (both
falsy) disable the check. -/
def checkTokenLimit (st : AState) : Bool :=
  match st.tokenLimit with
  | none => true
  | some l => if l == 0 then true else st.estimatedTokens < l

/-- Rendering of `${this.tokenLimit}` in the warning template. -/
def tokenLimitStr (st : AState) : List Char :=
  match st.tokenLimit with
  | none => cs "undefined"
  | some l => cs (Nat.repr l)

/-- The warning string returned by `chat` when the token pre-check
fails (`src/assistant.ts` line 108). -/
def tokenWarning (st : AState) : List Char :=
  cs "⚠️  Token limit reached (" ++ cs (Nat.repr st.estimatedTokens) ++ cs "/" ++
    tokenLimitStr st ++
    cs "). Consider clearing history with /clear or increasing the limit."

/-- Append one message to the conversation history. -/
def pushMsg (st : AState) (r : Role) (content : List Char) : AState :=
  { st with history := st.history ++ [{ role := r, content := content }] }

/-- JS `Array.prototype.join(sep)`. -/
def joinSep (sep : List Char) : List (List Char) → List Char
  | [] => []
  | [x] => x
  | x :: y :: xs => x ++ sep ++ joinSep sep (y :: xs)

/-- The iteration ceiling of `Assistant.chat`
(`let maxIterations = 5`, `src/assistant.ts` line 112). -/
def maxIterations : Nat := 5

/-- The `while (iteration < maxIterations)` loop of `Assistant.chat`
(`src/assistant.ts` lines 115-166), with `remaining` the iterations
left and `idx` the model-call index into the response oracle.  Returns
(`response`, final state, number of model calls made).  `response`
starts as the empty string and is assigned only on the
no-tool-calls exit, so exhausting the ceiling returns the empty
string. -/
def chatLoop (jsonParse : List Char → Option PBag)
    (cb : Option (List Char → Bool)) (oracle : Nat → List Char) :
    Nat → Nat → AState → List Char × AState × Nat
  | 0, _, st => ([], st, 0)
  | remaining + 1, idx, st =>
    let ai := oracle idx
    let st1 := pushMsg st .assistant ai
    let tus := extractToolUses jsonParse ai
    if tus.isEmpty then
      (cleanResponse ai, st1, 1)
    else
      let batch := runBatch cb st1 tus
      let st2 := pushMsg batch.2 .user
        (cs "Tool results:\n" ++ joinSep (cs "\n\n") batch.1)
      let rest := chatLoop jsonParse cb oracle remaining (idx + 1) st2
      (rest.1, rest.2.1, rest.2.2 + 1)

/-- `Assistant.chat` (`src/assistant.ts` lines 96-169): append the user
message, recompute the token estimate, return the warning immediately
when the pre-check fails (no model call), otherwise run the bounded
iteration loop.  The model client is abstracted as `oracle` (both the
streaming and the blocking path accumulate one full response text per
call). -/
def chat (jsonParse : List Char → Option PBag)
    (cb : Option (List Char → Bool)) (oracle : Nat → List Char)
    (userMessage : List Char) (st : AState) : List Char × AState × Nat :=
  let st1 := updateTokenCount (pushMsg st .user userMessage)
  if !(checkTokenLimit st1) then
    (tokenWarning st1, st1, 0)
  else
    chatLoop jsonParse cb oracle maxIterations 0 st1

/-- A persisted session snapshot (`saveData` in
`Assistant.saveConversation`, `src/assistant.ts` lines 350-354):
`{timestamp, history, toolUseCount}`. -/
structure Snapshot where
  timestamp : List Char
  history : List OllamaMessage
  toolUseCount : Nat
deriving DecidableEq

/-- The conversation store (`~/.occ-conversations`), one snapshot per
name: the filesystem directory is modelled as an association list from
session name to snapshot. -/
abbrev Store := List (List Char × Snapshot)

/-- Write the snapshot file for `name`, overwriting an existing entry of
the same name (`fs.promises.writeFile` semantics). -/
def storeSet (store : Store) (name : List Char) (snap : Snapshot) : Store :=
  match store with
  | [] => [(name, snap)]
  | kv :: rest =>
    if kv.1 == name then (name, snap) :: rest
    else kv :: storeSet rest name snap

/-- Read the snapshot file for `name`, `none` when the file does not
exist (`fs.existsSync` guard). -/
def storeGet (store : Store) (name : List Char) : Option Snapshot :=
  (store.find? (fun kv => kv.1 == name)).map (fun kv => kv.2)

/-- `path.join(conversationsDir, name + '.json')`. -/
def convPath (dir name : List Char) : List Char :=
  dir ++ cs "/" ++ name ++ cs ".json"

/-- `Assistant.saveConversation` (`src/assistant.ts` lines 338-368),
success path: serialize `{timestamp, history, toolUseCount}` under the
name, overwriting any existing entry; the assistant state is not
modified. -/
def saveConversation (dir : List Char) (store : Store) (st : AState)
    (timestamp name : List Char) : Store × Bool × List Char :=
  (storeSet store name ⟨timestamp, st.history, st.toolUseCount⟩,
   true, cs "Conversation saved to " ++ convPath dir name)

/-- `Assistant.loadConversation` (`src/assistant.ts` lines 370-399):
a missing entry is a reported not-found failure; otherwise the in-memory
history and tool-use counter are replaced wholesale from the snapshot.
No other state field is touched — in particular `estimatedTokens` keeps
its previous value. -/
def loadConversation (store : Store) (st : AState) (name : List Char) :
    AState × Bool × List Char :=
  match storeGet store name with
  | none => (st, false, cs "Conversation '" ++ name ++ cs "' not found")
  | some snap =>
    ({ st with history := snap.history, toolUseCount := snap.toolUseCount },
     true,
     cs "Conversation '" ++ name ++ cs "' loaded (saved: " ++
       snap.timestamp ++ cs ")")

/-- `pat` is nonempty and no nontrivial shift aligns `pat` with itself;
both block markers satisfy this because `<` occurs in them only at
position 0.  Under this condition an occurrence of `pat` cannot straddle
the boundary between a marker-free prefix and a following literal
`pat`. -/
def SelfOvFree (pat : List Char) : Prop :=
  pat ≠ [] ∧ ∀ k < pat.length, 0 < k → pat.drop k ≠ pat.take (pat.length - k)

/-- A response text assembled from prose segments and N tool-call
blocks: leading prose, then for each pair (block body, following prose)
an open marker, the body, a close marker and the prose. -/
def interleave : List Char → List (List Char × List Char) → List Char
  | p0, [] => p0
  | p0, (b, p) :: rest =>
    p0 ++ toolUseOpenT ++ b ++ toolUseCloseT ++ interleave p rest

/-- The prose segments have no open marker and the block bodies have no
close marker — the well-formedness conditions under which the N blocks
of an interleaving are recognized exactly. -/
def CleanParts (p0 : List Char) (bps : List (List Char × List Char)) : Prop :=
  splitOnFirst toolUseOpenT p0 = none ∧
  ∀ bp ∈ bps, splitOnFirst toolUseCloseT bp.1 = none ∧
    splitOnFirst toolUseOpenT bp.2 = none

instance (p0 : List Char) (bps : List (List Char × List Char)) :
    Decidable (CleanParts p0 bps) := by
  unfold CleanParts
  infer_instance

/-- A minimal concrete stand-in for the abstract `JSON.parse` argument,
used to instantiate theorems at concrete inputs: accepts exactly the
empty object literal. -/
def jsonParseSample (s : List Char) : Option PBag :=
  if s == cs "\x7b\x7d" then some [] else none

/-- A model response carrying one tool-call block and trailing prose. -/
def sampleToolText : List Char :=
  cs "<tool_use><tool_name>read_file</tool_name><parameters>\x7b\x7d</parameters></tool_use> hello"

/-- An oracle answering every model call with `sampleToolText`. -/
def sampleOracle : Nat → List Char := fun _ => sampleToolText

/-- An oracle answering every model call with plain prose. -/
def samplePlainOracle : Nat → List Char := fun _ => cs "  The answer is 42.  "

/-- A fresh assistant state with no token limit and no tools. -/
def sampleState : AState :=
  { history := [], toolUseCount := 0, estimatedTokens := 0,
    tokenLimit := none, requireConfirmation := false, tools := [] }

/-- An assistant state with a configured positive token ceiling and a
history whose estimate is close to it. -/
def sampleLimitedState : AState :=
  { history := [{ role := .system, content := cs "You are a helpful coding assistant." }],
    toolUseCount := 0, estimatedTokens := 0, tokenLimit := some 10,
    requireConfirmation := false, tools := [] }

/-- An assistant state with a configured token ceiling of 0. -/
def sampleZeroLimitState : AState :=
  { history := [], toolUseCount := 0, estimatedTokens := 0,
    tokenLimit := some 0, requireConfirmation := false, tools := [] }

/-- A state whose cached estimated-token counter (7) differs from the
estimate recomputed from its history (2). -/
def sampleStaleState : AState :=
  { history := [{ role := .user, content := cs "aaaaaaaa" }],
    toolUseCount := 3, estimatedTokens := 7, tokenLimit := none,
    requireConfirmation := false, tools := [] }

/-- A built-in descriptor whose name collides with a plugin tool's
registered (prefixed) name. -/
def sampleBuiltinTool : Tool :=
  { name := cs "plugin_hello", description := cs "built-in",
    execute := fun _ => .success (cs "ok") }

/-- A plugin tool declared as `hello`, registered as `plugin_hello`. -/
def samplePluginTool : Tool :=
  { name := mkPluginToolName (cs "hello"), description := cs "from plugin",
    execute := fun _ => .failure (cs "x") }

/-- A registry entry for `execute_command`. -/
def sampleExecTool : Tool :=
  { name := cs "execute_command", description := cs "Execute a shell command",
    execute := fun _ => .success (cs "ok") }

/-- A registry entry for `read_file`. -/
def sampleReadTool : Tool :=
  { name := cs "read_file", description := cs "Read the contents of a file",
    execute := fun _ => .success (cs "contents") }

/-- An assistant state in confirmation mode with both sample tools. -/
def sampleConfirmState : AState :=
  { history := [], toolUseCount := 0, estimatedTokens := 0,
    tokenLimit := none, requireConfirmation := true,
    tools := [sampleExecTool, sampleReadTool] }

/-- A confirmation callback that declines every request. -/
def sampleDenyCb : Option (List Char → Bool) := some (fun _ => false)

/-- A dangerous invocation: a `sudo` command. -/
def sampleDangerousUse : ToolUse :=
  { name := cs "execute_command",
    parameters := [(cs "command", cs "sudo rm x")] }

/-- A harmless invocation of `read_file`. -/
def sampleReadUse : ToolUse :=
  { name := cs "read_file", parameters := [(cs "file_path", cs "a.txt")] }

/-- A well-formed block body: name and parameters sub-fields with valid
(empty-object) JSON. -/
def sampleBlockGood : List Char :=
  cs "<tool_name>read_file</tool_name><parameters> \x7b\x7d </parameters>"

/-- A malformed block body: the parameters text is not valid JSON. -/
def sampleBlockBad : List Char :=
  cs "<tool_name>write_file</tool_name><parameters>\x7bbad</parameters>"

/-- One well-formed and one invalid-JSON block with surrounding prose. -/
def sampleBps : List (List Char × List Char) :=
  [(sampleBlockGood, cs " mid "), (sampleBlockBad, cs " post")]

example : isDangerousCommand true (cs "execute_command")
    [(cs "command", cs "rm -rf /")] = true := by decide

example : isDangerousCommand true (cs "execute_command")
    [(cs "command", cs "ls -la")] = false := by decide

example : isDangerousCommand true (cs "read_file")
    [(cs "file_path", cs "/etc/passwd")] = false := by decide

example : isDangerousCommand false (cs "execute_command")
    [(cs "command", cs "rm -rf /")] = false := by decide

example : isDangerousCommand true (cs "write_file") [] = true := by decide

theorem stripPrefixLit_some (p : List Char) :
    ∀ s r, stripPrefixLit p s = some r ↔ s = p ++ r := by
  induction p with
  | nil => intro s r; simp [stripPrefixLit]
  | cons x xs ih =>
    intro s r
    cases s with
    | nil => simp [stripPrefixLit]
    | cons c cs2 =>
      simp only [stripPrefixLit, List.cons_append]
      by_cases h : x == c
      · have hx : x = c := beq_iff_eq.mp h
        subst hx
        simp [ih]
      · have hx : x ≠ c := fun hc => h (beq_iff_eq.mpr hc)
        simp [h]
        intro hc
        exact absurd hc.symm hx

theorem splitOnFirst_sound (pat : List Char) :
    ∀ s pre post, splitOnFirst pat s = some (pre, post) → s = pre ++ pat ++ post := by
  intro s
  induction s with
  | nil =>
    intro pre post h
    simp only [splitOnFirst] at h
    split at h
    next r heq =>
      simp only [Option.some.injEq, Prod.mk.injEq] at h
      obtain ⟨h1, h2⟩ := h
      subst h1; subst h2
      simpa using (stripPrefixLit_some pat [] r).mp heq
    next => exact absurd h (by simp)
  | cons c s ih =>
    intro pre post h
    simp only [splitOnFirst] at h
    split at h
    next r heq =>
      simp only [Option.some.injEq, Prod.mk.injEq] at h
      obtain ⟨h1, h2⟩ := h
      subst h1; subst h2
      simpa using (stripPrefixLit_some pat (c :: s) r).mp heq
    next =>
      split at h
      next pre' post' heq =>
        simp only [Option.some.injEq, Prod.mk.injEq] at h
        obtain ⟨h1, h2⟩ := h
        subst h1; subst h2
        simpa using ih pre' post' heq
      next => exact absurd h (by simp)

theorem splitOnFirst_post_length (pat : List Char) (hpat : pat ≠ [])
    (s pre post : List Char) (h : splitOnFirst pat s = some (pre, post)) :
    post.length < s.length := by
  have hs := splitOnFirst_sound pat s pre post h
  have hp : 0 < pat.length := List.length_pos.mpr hpat
  subst hs
  simp [List.length_append]
  omega

theorem extractBlocksF_irrel :
    ∀ f1 f2 s, s.length < f1 → s.length < f2 →
      extractBlocksF f1 s = extractBlocksF f2 s := by
  intro f1
  induction f1 with
  | zero => intro f2 s h1 _; omega
  | succ a ih =>
    intro f2 s h1 h2
    cases f2 with
    | zero => omega
    | succ b =>
      simp only [extractBlocksF]
      split
      · rfl
      next _pre rest hsplit1 =>
        split
        · rfl
        next content rest2 hsplit2 =>
          have l1 := splitOnFirst_post_length toolUseOpenT (by decide) s _pre rest hsplit1
          have l2 := splitOnFirst_post_length toolUseCloseT (by decide) rest content rest2 hsplit2
          have := ih b rest2 (by omega) (by omega)
          rw [this]

theorem extractBlocks_eq (s : List Char) :
    extractBlocks s =
      match splitOnFirst toolUseOpenT s with
      | none => []
      | some (_, rest) =>
        match splitOnFirst toolUseCloseT rest with
        | none => []
        | some (content, rest2) => content :: extractBlocks rest2 := by
  show extractBlocksF (s.length + 1) s = _
  simp only [extractBlocksF]
  split
  · rfl
  next _pre rest hsplit1 =>
    split
    · rfl
    next content rest2 hsplit2 =>
      have l1 := splitOnFirst_post_length toolUseOpenT (by decide) s _pre rest hsplit1
      have l2 := splitOnFirst_post_length toolUseCloseT (by decide) rest content rest2 hsplit2
      rw [extractBlocksF_irrel s.length (rest2.length + 1) rest2 (by omega) (by omega)]
      rfl

theorem removeBlocksF_irrel :
    ∀ f1 f2 s, s.length < f1 → s.length < f2 →
      removeBlocksF f1 s = removeBlocksF f2 s := by
  intro f1
  induction f1 with
  | zero => intro f2 s h1 _; omega
  | succ a ih =>
    intro f2 s h1 h2
    cases f2 with
    | zero => omega
    | succ b =>
      simp only [removeBlocksF]
      split
      · rfl
      next pre rest hsplit1 =>
        split
        · rfl
        next _content rest2 hsplit2 =>
          have l1 := splitOnFirst_post_length toolUseOpenT (by decide) s pre rest hsplit1
          have l2 := splitOnFirst_post_length toolUseCloseT (by decide) rest _content rest2 hsplit2
          have := ih b rest2 (by omega) (by omega)
          rw [this]

theorem removeBlocks_eq (s : List Char) :
    removeBlocks s =
      match splitOnFirst toolUseOpenT s with
      | none => s
      | some (pre, rest) =>
        match splitOnFirst toolUseCloseT rest with
        | none => s
        | some (_, rest2) => pre ++ removeBlocks rest2 := by
  show removeBlocksF (s.length + 1) s = _
  simp only [removeBlocksF]
  split
  · rfl
  next pre rest hsplit1 =>
    split
    · rfl
    next _content rest2 hsplit2 =>
      have l1 := splitOnFirst_post_length toolUseOpenT (by decide) s pre rest hsplit1
      have l2 := splitOnFirst_post_length toolUseCloseT (by decide) rest _content rest2 hsplit2
      rw [removeBlocksF_irrel s.length (rest2.length + 1) rest2 (by omega) (by omega)]
      rfl

theorem splitOnFirst_of_strip (pat a t : List Char)
    (h : stripPrefixLit pat a = some t) :
    splitOnFirst pat a = some ([], t) := by
  cases a <;> simp [splitOnFirst, h]

theorem splitOnFirst_cons_none (pat : List Char) (c : Char) (s : List Char)
    (h : splitOnFirst pat (c :: s) = none) :
    stripPrefixLit pat (c :: s) = none ∧ splitOnFirst pat s = none := by
  simp only [splitOnFirst] at h
  split at h
  next => exact absurd h (by simp)
  next hstrip =>
    refine ⟨hstrip, ?_⟩
    split at h
    next => exact absurd h (by simp)
    next hrec => exact hrec

theorem splitOnFirst_cons (pat : List Char) (c : Char) (s : List Char) :
    splitOnFirst pat (c :: s) =
      match stripPrefixLit pat (c :: s) with
      | some r => some ([], r)
      | none =>
        match splitOnFirst pat s with
        | some (pre, post) => some (c :: pre, post)
        | none => none := rfl

theorem splitOnFirst_of_clean (pat : List Char) (hov : SelfOvFree pat) :
    ∀ p r, splitOnFirst pat p = none →
      splitOnFirst pat (p ++ pat ++ r) = some (p, r) := by
  intro p
  induction p with
  | nil =>
    intro r _
    have hstrip : stripPrefixLit pat (pat ++ r) = some r :=
      (stripPrefixLit_some pat (pat ++ r) r).mpr rfl
    simpa using splitOnFirst_of_strip pat (pat ++ r) r hstrip
  | cons c p' ih =>
    intro r hp
    obtain ⟨hstrip0, hp'⟩ := splitOnFirst_cons_none pat c p' hp
    have hnostrip : stripPrefixLit pat ((c :: p') ++ pat ++ r) = none := by
      cases hcase : stripPrefixLit pat ((c :: p') ++ pat ++ r) with
      | none => rfl
      | some r' =>
        exfalso
        have heq : (c :: p') ++ pat ++ r = pat ++ r' :=
          (stripPrefixLit_some pat _ r').mp hcase
        have hpatpref : pat <+: (c :: p') ++ pat ++ r := ⟨r', heq.symm⟩
        have hapref : (c :: p') <+: (c :: p') ++ pat ++ r := by
          refine ⟨pat ++ r, ?_⟩
          simp
        by_cases hle : pat.length ≤ (c :: p').length
        · have hpa : pat <+: (c :: p') :=
            List.prefix_of_prefix_length_le hpatpref hapref hle
          obtain ⟨t, hta⟩ := hpa
          have : stripPrefixLit pat (c :: p') = some t :=
            (stripPrefixLit_some pat (c :: p') t).mpr hta.symm
          rw [this] at hstrip0
          exact absurd hstrip0 (by simp)
        · push_neg at hle
          have hap : (c :: p') <+: pat :=
            List.prefix_of_prefix_length_le hapref hpatpref (le_of_lt hle)
          obtain ⟨t, hat⟩ := hap
          have htlen : (c :: p').length + t.length = pat.length := by
            have hlen := congrArg List.length hat
            simp at hlen
            simp
            omega
          have hdrop : pat.drop (c :: p').length = t := by
            rw [← hat]
            simp
          have hcancel : pat ++ r = t ++ r' := by
            have h2 : (c :: p') ++ (pat ++ r) = (c :: p') ++ (t ++ r') := by
              calc (c :: p') ++ (pat ++ r) = (c :: p') ++ pat ++ r := by simp
                _ = pat ++ r' := heq
                _ = ((c :: p') ++ t) ++ r' := by rw [← hat]
                _ = (c :: p') ++ (t ++ r') := by simp
            exact List.append_cancel_left h2
          have htpref : t <+: pat := by
            have ht1 : t <+: pat ++ r := ⟨r', hcancel.symm⟩
            have ht2 : pat <+: pat ++ r := ⟨r, rfl⟩
            exact List.prefix_of_prefix_length_le ht1 ht2 (by omega)
          have htake : t = pat.take t.length := List.prefix_iff_eq_take.mp htpref
          have hkey : pat.drop (c :: p').length =
              pat.take (pat.length - (c :: p').length) := by
            rw [hdrop, htake]
            congr 1
            omega
          exact hov.2 (c :: p').length (by omega) (by simp) hkey
    have harr : (c :: p') ++ pat ++ r = c :: (p' ++ pat ++ r) := by simp
    rw [harr] at hnostrip
    rw [harr, splitOnFirst_cons pat c (p' ++ pat ++ r), hnostrip, ih r hp']

example : SelfOvFree toolUseOpenT := by
  constructor
  · decide
  · decide

example : SelfOvFree toolUseCloseT := by
  constructor
  · decide
  · decide

theorem selfOvFree_open : SelfOvFree toolUseOpenT :=
  ⟨by decide, by decide⟩

theorem selfOvFree_close : SelfOvFree toolUseCloseT :=
  ⟨by decide, by decide⟩

theorem extractBlocks_no_open (s : List Char)
    (h : splitOnFirst toolUseOpenT s = none) : extractBlocks s = [] := by
  rw [extractBlocks_eq, h]

theorem removeBlocks_no_open (s : List Char)
    (h : splitOnFirst toolUseOpenT s = none) : removeBlocks s = s := by
  rw [removeBlocks_eq, h]

theorem extractBlocks_step (p0 b tail : List Char)
    (hp0 : splitOnFirst toolUseOpenT p0 = none)
    (hb : splitOnFirst toolUseCloseT b = none) :
    extractBlocks (p0 ++ toolUseOpenT ++ (b ++ toolUseCloseT ++ tail)) =
      b :: extractBlocks tail := by
  conv_lhs => rw [extractBlocks_eq]
  simp only [splitOnFirst_of_clean toolUseOpenT selfOvFree_open p0 _ hp0,
    splitOnFirst_of_clean toolUseCloseT selfOvFree_close b tail hb]

theorem removeBlocks_step (p0 b tail : List Char)
    (hp0 : splitOnFirst toolUseOpenT p0 = none)
    (hb : splitOnFirst toolUseCloseT b = none) :
    removeBlocks (p0 ++ toolUseOpenT ++ (b ++ toolUseCloseT ++ tail)) =
      p0 ++ removeBlocks tail := by
  conv_lhs => rw [removeBlocks_eq]
  simp only [splitOnFirst_of_clean toolUseOpenT selfOvFree_open p0 _ hp0,
    splitOnFirst_of_clean toolUseCloseT selfOvFree_close b tail hb]

theorem extractBlocks_interleave :
    ∀ (bps : List (List Char × List Char)) (p0 : List Char),
      CleanParts p0 bps →
      extractBlocks (interleave p0 bps) = bps.map (fun bp => bp.1) := by
  intro bps
  induction bps with
  | nil =>
    intro p0 hclean
    simpa using extractBlocks_no_open p0 hclean.1
  | cons bp rest ih =>
    intro p0 hclean
    obtain ⟨b, p⟩ := bp
    have hb := (hclean.2 (b, p) (by simp)).1
    have hp := (hclean.2 (b, p) (by simp)).2
    have h1 : interleave p0 ((b, p) :: rest) =
        p0 ++ toolUseOpenT ++ (b ++ toolUseCloseT ++ interleave p rest) := by
      simp [interleave]
    rw [h1, extractBlocks_step p0 b (interleave p rest) hclean.1 hb,
      ih p ⟨hp, fun x hx => hclean.2 x (List.mem_cons_of_mem _ hx)⟩]
    simp

theorem removeBlocks_interleave :
    ∀ (bps : List (List Char × List Char)) (p0 : List Char),
      CleanParts p0 bps →
      removeBlocks (interleave p0 bps) =
        p0 ++ (bps.map (fun bp => bp.2)).flatten := by
  intro bps
  induction bps with
  | nil =>
    intro p0 hclean
    simpa using removeBlocks_no_open p0 hclean.1
  | cons bp rest ih =>
    intro p0 hclean
    obtain ⟨b, p⟩ := bp
    have hb := (hclean.2 (b, p) (by simp)).1
    have hp := (hclean.2 (b, p) (by simp)).2
    have h1 : interleave p0 ((b, p) :: rest) =
        p0 ++ toolUseOpenT ++ (b ++ toolUseCloseT ++ interleave p rest) := by
      simp [interleave]
    rw [h1, removeBlocks_step p0 b (interleave p rest) hclean.1 hb,
      ih p ⟨hp, fun x hx => hclean.2 x (List.mem_cons_of_mem _ hx)⟩]
    simp

theorem removeBlocks_of_no_blocks (s : List Char)
    (h : extractBlocks s = []) : removeBlocks s = s := by
  rw [removeBlocks_eq]
  rw [extractBlocks_eq] at h
  cases h1 : splitOnFirst toolUseOpenT s with
  | none => rfl
  | some pr =>
    obtain ⟨pre, rest⟩ := pr
    rw [h1] at h
    dsimp only at h
    cases h2 : splitOnFirst toolUseCloseT rest with
    | none =>
      dsimp only
      rw [h2]
    | some cr =>
      obtain ⟨content, rest2⟩ := cr
      rw [h2] at h
      exact absurd h (by simp)

theorem executeTool_fields (st : AState) (tu : ToolUse)
    (cb : Option (List Char → Bool)) :
    (executeTool st tu cb).2.history = st.history ∧
    (executeTool st tu cb).2.tools = st.tools ∧
    (executeTool st tu cb).2.requireConfirmation = st.requireConfirmation ∧
    (executeTool st tu cb).2.estimatedTokens = st.estimatedTokens ∧
    (executeTool st tu cb).2.tokenLimit = st.tokenLimit := by
  cases hf : findTool st.tools tu.name with
  | none => simp [executeTool, hf]
  | some tool =>
    by_cases hd : deniedBy st tu cb = true
    · simp [executeTool, hf, hd]
    · replace hd : deniedBy st tu cb = false := by simpa using hd
      cases ho : tool.execute tu.parameters <;> simp [executeTool, hf, hd, ho]

theorem runBatch_cons (cb : Option (List Char → Bool)) (st : AState)
    (tu : ToolUse) (rest : List ToolUse) :
    runBatch cb st (tu :: rest) =
      ((executeTool st tu cb).1 ::
        (runBatch cb (executeTool st tu cb).2 rest).1,
       (runBatch cb (executeTool st tu cb).2 rest).2) := rfl

theorem runBatch_fields (cb : Option (List Char → Bool)) :
    ∀ (l : List ToolUse) (st : AState),
      (runBatch cb st l).2.tools = st.tools ∧
      (runBatch cb st l).2.requireConfirmation = st.requireConfirmation := by
  intro l
  induction l with
  | nil => intro st; exact ⟨rfl, rfl⟩
  | cons tu rest ih =>
    intro st
    rw [runBatch_cons]
    exact ⟨((ih _).1).trans (executeTool_fields st tu cb).2.1,
      ((ih _).2).trans (executeTool_fields st tu cb).2.2.1⟩

theorem runBatch_length (cb : Option (List Char → Bool)) :
    ∀ (l : List ToolUse) (st : AState), (runBatch cb st l).1.length = l.length := by
  intro l
  induction l with
  | nil => intro st; rfl
  | cons tu rest ih => intro st; rw [runBatch_cons]; simp [ih]

theorem runBatch_append (cb : Option (List Char → Bool)) :
    ∀ (l1 l2 : List ToolUse) (st : AState),
      runBatch cb st (l1 ++ l2) =
        ((runBatch cb st l1).1 ++ (runBatch cb (runBatch cb st l1).2 l2).1,
         (runBatch cb (runBatch cb st l1).2 l2).2) := by
  intro l1
  induction l1 with
  | nil => intro l2 st; simp [runBatch]
  | cons tu rest ih =>
    intro l2 st
    simp only [List.cons_append, runBatch_cons, ih]

theorem executeTool_denied (st : AState) (tu : ToolUse)
    (cb : Option (List Char → Bool)) (tool : Tool)
    (hf : findTool st.tools tu.name = some tool)
    (hd : deniedBy st tu cb = true) :
    executeTool st tu cb =
      (cs "Tool '" ++ tu.name ++ cs "' execution cancelled by user", st) := by
  simp [executeTool, hf, hd]

theorem deniedBy_congr (st st' : AState) (tu : ToolUse)
    (cb : Option (List Char → Bool))
    (h : st'.requireConfirmation = st.requireConfirmation) :
    deniedBy st' tu cb = deniedBy st tu cb := by
  unfold deniedBy
  rw [h]

/-- **C10**: `executeTool` increments the tool-use counter by exactly one
iff the named tool is found in the registry and no offered confirmation
is declined — independent of whether the execution succeeds, returns a
failure result, or throws — and leaves it unchanged when the tool is not
found or the confirmation is denied. -/
theorem executeTool_toolUseCount (st : AState) (tu : ToolUse)
    (cb : Option (List Char → Bool)) :
    (executeTool st tu cb).2.toolUseCount =
      (if (findTool st.tools tu.name).isSome ∧ deniedBy st tu cb = false
       then st.toolUseCount + 1 else st.toolUseCount) := by
  cases hf : findTool st.tools tu.name with
  | none => simp [executeTool, hf]
  | some tool =>
    by_cases hd : deniedBy st tu cb = true
    · simp [executeTool, hf, hd]
    · replace hd : deniedBy st tu cb = false := by simpa using hd
      cases ho : tool.execute tu.parameters <;> simp [executeTool, hf, hd, ho]

/-- **C6**: in one iteration's batch, a denied confirmation on a
dangerous invocation produces the "cancelled by user" result for that
invocation only and leaves the state untouched; every other invocation
in the batch still executes, in source order, and the batch still yields
one result per invocation. -/
theorem runBatch_denied_isolation (cb : Option (List Char → Bool))
    (st : AState) (pre post : List ToolUse) (d : ToolUse) (tool : Tool)
    (hf : findTool st.tools d.name = some tool)
    (hd : deniedBy st d cb = true) :
    runBatch cb st (pre ++ d :: post) =
      ((runBatch cb st pre).1 ++
        (cs "Tool '" ++ d.name ++ cs "' execution cancelled by user") ::
          (runBatch cb (runBatch cb st pre).2 post).1,
       (runBatch cb (runBatch cb st pre).2 post).2) ∧
    (runBatch cb st (pre ++ d :: post)).1.length =
      pre.length + 1 + post.length := by
  have hfields := runBatch_fields cb pre st
  have hf1 : findTool (runBatch cb st pre).2.tools d.name = some tool := by
    rw [hfields.1]; exact hf
  have hd1 : deniedBy (runBatch cb st pre).2 d cb = true := by
    rw [deniedBy_congr st (runBatch cb st pre).2 d cb hfields.2]; exact hd
  have hmain : runBatch cb st (pre ++ d :: post) =
      ((runBatch cb st pre).1 ++
        (cs "Tool '" ++ d.name ++ cs "' execution cancelled by user") ::
          (runBatch cb (runBatch cb st pre).2 post).1,
       (runBatch cb (runBatch cb st pre).2 post).2) := by
    rw [runBatch_append, runBatch_cons,
      executeTool_denied (runBatch cb st pre).2 d cb tool hf1 hd1]
  refine ⟨hmain, ?_⟩
  rw [hmain]
  simp [runBatch_length]
  omega

/-- **C4 (amended)**: registry lookup is deterministic, but it is the
*first*-registered descriptor that wins: `Array.find` returns the first
element whose name matches, and the registry lists built-ins before
plugin tools, so for any name whose first occurrence is the descriptor
`t`, lookup returns exactly `t` — in a built-in/plugin collision the
built-in, not the last-registered plugin tool. -/
theorem findTool_first_match (builtPre : List Tool) (t : Tool)
    (builtPost pluginTools : List Tool)
    (hpre : ∀ u ∈ builtPre, u.name ≠ t.name) :
    findTool (getAvailableTools (builtPre ++ t :: builtPost) pluginTools)
      t.name = some t := by
  unfold findTool getAvailableTools
  induction builtPre with
  | nil => simp
  | cons u us ih =>
    have hu : (u.name == t.name) = false := by
      have := hpre u (by simp)
      simpa using this
    simp only [List.cons_append, List.find?]
    rw [hu]
    exact ih (fun v hv => hpre v (List.mem_cons_of_mem _ hv))

/-- **C5**: the safety gate returns false for every tool and parameter
bag when confirmation mode is off; with the mode on it returns false
outside the denylist, true unconditionally for `write_file`,
`edit_file` and `git_commit`, and true for `execute_command` exactly
when the command string matches at least one of the fixed risk
patterns — so `rm -rf /` is dangerous and `ls -la` is not. -/
theorem isDangerousCommand_characterization :
    (∀ name params, isDangerousCommand false name params = false) ∧
    (∀ name params, dangerousTools.contains name = false →
      isDangerousCommand true name params = false) ∧
    (∀ params, isDangerousCommand true (cs "write_file") params = true) ∧
    (∀ params, isDangerousCommand true (cs "edit_file") params = true) ∧
    (∀ params, isDangerousCommand true (cs "git_commit") params = true) ∧
    (∀ params, isDangerousCommand true (cs "execute_command") params = true ↔
      ∃ pat ∈ dangerousPatterns,
        regexTest pat (params.getStr (cs "command")) = true) ∧
    isDangerousCommand true (cs "execute_command")
      [(cs "command", cs "rm -rf /")] = true ∧
    isDangerousCommand true (cs "execute_command")
      [(cs "command", cs "ls -la")] = false := by
  refine ⟨?_, ?_, ?_, ?_, ?_, ?_, ?_, ?_⟩
  · intro name params; rfl
  · intro name params h
    unfold isDangerousCommand
    rw [h]
    rfl
  · intro params; rfl
  · intro params; rfl
  · intro params; rfl
  · intro params
    have hc : dangerousTools.contains (cs "execute_command") = true := by decide
    have he : (cs "execute_command" == cs "execute_command") = true := by decide
    simp only [isDangerousCommand, hc, he, Bool.not_true, Bool.false_eq_true,
      if_false, if_true, List.any_eq_true]
  · decide
  · decide

theorem extractToolUses_nil_of_no_blocks (jsonParse : List Char → Option PBag)
    (t : List Char) (h : extractBlocks t = []) :
    extractToolUses jsonParse t = [] := by
  unfold extractToolUses
  rw [h]
  rfl

theorem chatLoop_succ (jsonParse : List Char → Option PBag)
    (cb : Option (List Char → Bool)) (oracle : Nat → List Char)
    (remaining idx : Nat) (st : AState) :
    chatLoop jsonParse cb oracle (remaining + 1) idx st =
      (if (extractToolUses jsonParse (oracle idx)).isEmpty then
        (cleanResponse (oracle idx), pushMsg st .assistant (oracle idx), 1)
      else
        ((chatLoop jsonParse cb oracle remaining (idx + 1)
          (pushMsg (runBatch cb (pushMsg st .assistant (oracle idx))
              (extractToolUses jsonParse (oracle idx))).2 .user
            (cs "Tool results:\n" ++ joinSep (cs "\n\n")
              (runBatch cb (pushMsg st .assistant (oracle idx))
                (extractToolUses jsonParse (oracle idx))).1))).1,
        ((chatLoop jsonParse cb oracle remaining (idx + 1)
          (pushMsg (runBatch cb (pushMsg st .assistant (oracle idx))
              (extractToolUses jsonParse (oracle idx))).2 .user
            (cs "Tool results:\n" ++ joinSep (cs "\n\n")
              (runBatch cb (pushMsg st .assistant (oracle idx))
                (extractToolUses jsonParse (oracle idx))).1))).2.1,
        (chatLoop jsonParse cb oracle remaining (idx + 1)
          (pushMsg (runBatch cb (pushMsg st .assistant (oracle idx))
              (extractToolUses jsonParse (oracle idx))).2 .user
            (cs "Tool results:\n" ++ joinSep (cs "\n\n")
              (runBatch cb (pushMsg st .assistant (oracle idx))
                (extractToolUses jsonParse (oracle idx))).1))).2.2 + 1))) := rfl

theorem chatLoop_no_tools (jsonParse : List Char → Option PBag)
    (cb : Option (List Char → Bool)) (oracle : Nat → List Char)
    (remaining idx : Nat) (st : AState)
    (h : extractToolUses jsonParse (oracle idx) = []) :
    chatLoop jsonParse cb oracle (remaining + 1) idx st =
      (cleanResponse (oracle idx), pushMsg st .assistant (oracle idx), 1) := by
  rw [chatLoop_succ]
  simp only [h, List.isEmpty_nil, if_true]

/-- **C9**: on a model response containing zero tool-call blocks, `chat`
makes exactly one model call, appends exactly one assistant message
after the user message, and returns the response text trimmed — there
is no markup, so stripping is the identity and the output equals the
trimmed input. -/
theorem chat_no_tool_calls (jsonParse : List Char → Option PBag)
    (cb : Option (List Char → Bool)) (oracle : Nat → List Char)
    (u : List Char) (st : AState)
    (htok : checkTokenLimit (updateTokenCount (pushMsg st .user u)) = true)
    (hblocks : extractBlocks (oracle 0) = []) :
    chat jsonParse cb oracle u st =
      (jsTrim (oracle 0),
       pushMsg (updateTokenCount (pushMsg st .user u)) .assistant (oracle 0),
       1) ∧
    (pushMsg (updateTokenCount (pushMsg st .user u)) .assistant
        (oracle 0)).history =
      st.history ++ [{ role := .user, content := u },
        { role := .assistant, content := oracle 0 }] := by
  constructor
  · unfold chat
    simp only [htok, Bool.not_true, Bool.false_eq_true, if_false]
    have h5 : maxIterations = 4 + 1 := rfl
    rw [h5, chatLoop_no_tools jsonParse cb oracle 4 0 _
      (extractToolUses_nil_of_no_blocks jsonParse (oracle 0) hblocks)]
    unfold cleanResponse
    rw [removeBlocks_of_no_blocks (oracle 0) hblocks]
  · simp [pushMsg, updateTokenCount]

theorem chatLoop_all_tool_calls (jsonParse : List Char → Option PBag)
    (cb : Option (List Char → Bool)) (oracle : Nat → List Char) :
    ∀ (remaining idx : Nat) (st : AState),
      (∀ i < remaining, extractToolUses jsonParse (oracle (idx + i)) ≠ []) →
      (chatLoop jsonParse cb oracle remaining idx st).1 = [] ∧
      (chatLoop jsonParse cb oracle remaining idx st).2.2 = remaining := by
  intro remaining
  induction remaining with
  | zero => intro idx st _; exact ⟨rfl, rfl⟩
  | succ n ih =>
    intro idx st hall
    have h0 : extractToolUses jsonParse (oracle idx) ≠ [] := by
      have := hall 0 (by omega)
      simpa using this
    have hne : (extractToolUses jsonParse (oracle idx)).isEmpty = false := by
      cases hx : extractToolUses jsonParse (oracle idx) with
      | nil => exact absurd hx h0
      | cons a l => rfl
    have hshift : ∀ i < n, extractToolUses jsonParse (oracle (idx + 1 + i)) ≠ [] := by
      intro i hi
      have := hall (i + 1) (by omega)
      have harith : idx + (i + 1) = idx + 1 + i := by omega
      rw [harith] at this
      exact this
    have hrec := ih (idx + 1) (pushMsg
      (runBatch cb (pushMsg st .assistant (oracle idx))
        (extractToolUses jsonParse (oracle idx))).2 .user
      (cs "Tool results:\n" ++ joinSep (cs "\n\n")
        (runBatch cb (pushMsg st .assistant (oracle idx))
          (extractToolUses jsonParse (oracle idx))).1)) hshift
    simp only [chatLoop, hne, Bool.false_eq_true, if_false]
    exact ⟨hrec.1, by rw [hrec.2]⟩

/-- **C1 (amended)**: when every model response in the turn contains at
least one parsed tool invocation, `chat` returns after exactly the
iteration ceiling of 5 model calls, and its returned value is the empty
string — the `response` variable is assigned only on the no-tool-calls
exit, so the last iteration's stripped text is *not* returned. -/
theorem chat_iteration_ceiling (jsonParse : List Char → Option PBag)
    (cb : Option (List Char → Bool)) (oracle : Nat → List Char)
    (u : List Char) (st : AState)
    (htok : checkTokenLimit (updateTokenCount (pushMsg st .user u)) = true)
    (hall : ∀ i < maxIterations, extractToolUses jsonParse (oracle i) ≠ []) :
    (chat jsonParse cb oracle u st).1 = [] ∧
    (chat jsonParse cb oracle u st).2.2 = 5 := by
  unfold chat
  simp only [htok, Bool.not_true, Bool.false_eq_true, if_false]
  have := chatLoop_all_tool_calls jsonParse cb oracle maxIterations 0
    (updateTokenCount (pushMsg st .user u)) (by simpa using hall)
  exact this

theorem pushMsg_tokenLimit (st : AState) (r : Role) (content : List Char) :
    (pushMsg st r content).tokenLimit = st.tokenLimit := rfl

theorem updateTokenCount_estimate (st : AState) :
    (updateTokenCount st).estimatedTokens =
      (st.history.map (fun m => estimateTokens m.content)).sum := rfl

/-- **C3 (amended)**: with a configured *positive* token ceiling, when
the recomputed estimate after appending the new user message meets or
exceeds the ceiling, `chat` returns the warning string with zero model
calls; the history grows by exactly the rejected user message and no
assistant message is appended.  (A configured ceiling of 0 is falsy in
`checkTokenLimit` and disables the check instead.) -/
theorem chat_token_precheck (jsonParse : List Char → Option PBag)
    (cb : Option (List Char → Bool)) (oracle : Nat → List Char)
    (u : List Char) (st : AState) (l : Nat)
    (hl : st.tokenLimit = some l) (hpos : 0 < l)
    (hover : l ≤ (((st.history ++
        [({ role := .user, content := u } : OllamaMessage)]).map
      (fun m => estimateTokens m.content)).sum)) :
    chat jsonParse cb oracle u st =
      (tokenWarning (updateTokenCount (pushMsg st .user u)),
       updateTokenCount (pushMsg st .user u), 0) ∧
    (updateTokenCount (pushMsg st .user u)).history =
      st.history ++ [({ role := .user, content := u } : OllamaMessage)] := by
  have hfail : checkTokenLimit (updateTokenCount (pushMsg st .user u)) = false := by
    unfold checkTokenLimit
    have hlim : (updateTokenCount (pushMsg st .user u)).tokenLimit = some l := by
      rw [show (updateTokenCount (pushMsg st .user u)).tokenLimit =
        st.tokenLimit from rfl, hl]
    rw [hlim]
    have hest : (updateTokenCount (pushMsg st .user u)).estimatedTokens =
        ((st.history ++ [({ role := .user, content := u } : OllamaMessage)]).map
          (fun m => estimateTokens m.content)).sum := rfl
    have hl0 : (l == 0) = false := by
      cases l with
      | zero => omega
      | succ k => rfl
    dsimp only
    rw [hl0]
    simp only [Bool.false_eq_true, if_false]
    rw [hest]
    simp only [decide_eq_false_iff_not, not_lt]
    exact hover
  constructor
  · unfold chat
    simp only [hfail, Bool.not_false, if_true]
  · simp [pushMsg, updateTokenCount]

theorem storeGet_storeSet (name : List Char) (snap : Snapshot) :
    ∀ store : Store, storeGet (storeSet store name snap) name = some snap := by
  intro store
  induction store with
  | nil =>
    show storeGet [(name, snap)] name = some snap
    unfold storeGet
    rw [List.find?_cons_of_pos _ (by simp)]
    rfl
  | cons kv rest ih =>
    by_cases hk : (kv.1 == name) = true
    · unfold storeSet storeGet
      rw [if_pos hk, List.find?_cons_of_pos _ (by simp)]
      rfl
    · replace hk : (kv.1 == name) = false := by simpa using hk
      unfold storeSet storeGet
      rw [if_neg (by simp [hk]), List.find?_cons_of_neg _ (by simp [hk])]
      exact ih

/-- **C2 (amended)**: saving a session and loading it under the same
name reproduces an identical ordered message sequence and an identical
tool-use counter; but the load does *not* touch the estimated-token
counter — it keeps whatever value the loading assistant had cached
before the load, and is recomputed from the restored history only at
the next `chat` call's `updateTokenCount`. -/
theorem saveLoad_fidelity (dir : List Char) (store : Store) (st st2 : AState)
    (ts name : List Char) :
    (loadConversation (saveConversation dir store st ts name).1 st2 name).1.history =
      st.history ∧
    (loadConversation (saveConversation dir store st ts name).1 st2 name).1.toolUseCount =
      st.toolUseCount ∧
    (loadConversation (saveConversation dir store st ts name).1 st2 name).1.estimatedTokens =
      st2.estimatedTokens ∧
    (updateTokenCount (loadConversation (saveConversation dir store st ts name).1
        st2 name).1).estimatedTokens =
      (st.history.map (fun m => estimateTokens m.content)).sum := by
  have hget : storeGet (saveConversation dir store st ts name).1 name =
      some ⟨ts, st.history, st.toolUseCount⟩ :=
    storeGet_storeSet name ⟨ts, st.history, st.toolUseCount⟩ store
  unfold loadConversation
  rw [hget]
  exact ⟨rfl, rfl, rfl, rfl⟩

/-- **C8 (amended)**: stripping tool-call markup from a string built of
N valid blocks and surrounding prose yields exactly the JS-trim of the
concatenated prose segments, independent of N — the final `trim()`
means leading/trailing whitespace of the prose is not preserved
verbatim. -/
theorem cleanResponse_interleave (p0 : List Char)
    (bps : List (List Char × List Char)) (hclean : CleanParts p0 bps) :
    cleanResponse (interleave p0 bps) =
      jsTrim (p0 ++ (bps.map (fun bp => bp.2)).flatten) := by
  unfold cleanResponse
  rw [removeBlocks_interleave bps p0 hclean]

/-- **C7**: the parser returns the invocation requests of exactly the
well-formed blocks — those whose name sub-field matches, whose
parameters sub-field matches, and whose trimmed parameters text is
accepted by `JSON.parse` — in the order the block markers appear in the
text; a block failing any of these conditions is dropped without
aborting the parsing of later blocks. -/
theorem extractToolUses_characterization (jsonParse : List Char → Option PBag)
    (p0 : List Char) (bps : List (List Char × List Char))
    (hclean : CleanParts p0 bps) :
    extractToolUses jsonParse (interleave p0 bps) =
      (bps.map (fun bp => bp.1)).filterMap (parseBlock jsonParse) ∧
    (∀ b, findTagged toolNameOpenT toolNameCloseT false b = none →
      parseBlock jsonParse b = none) ∧
    (∀ b, findTagged paramsOpenT paramsCloseT true b = none →
      parseBlock jsonParse b = none) ∧
    (∀ b nameCap paramsCap,
      findTagged toolNameOpenT toolNameCloseT false b = some nameCap →
      findTagged paramsOpenT paramsCloseT true b = some paramsCap →
      jsonParse (jsTrim paramsCap) = none →
      parseBlock jsonParse b = none) ∧
    (∀ b nameCap paramsCap bag,
      findTagged toolNameOpenT toolNameCloseT false b = some nameCap →
      findTagged paramsOpenT paramsCloseT true b = some paramsCap →
      jsonParse (jsTrim paramsCap) = some bag →
      parseBlock jsonParse b = some ⟨jsTrim nameCap, bag⟩) := by
  refine ⟨?_, ?_, ?_, ?_, ?_⟩
  · unfold extractToolUses
    rw [extractBlocks_interleave bps p0 hclean]
  · intro b h
    unfold parseBlock
    rw [h]
  · intro b h
    unfold parseBlock
    rw [h]
    cases findTagged toolNameOpenT toolNameCloseT false b <;> rfl
  · intro b nameCap paramsCap h1 h2 h3
    unfold parseBlock
    rw [h1]
    dsimp only
    rw [h2]
    dsimp only
    rw [h3]
  · intro b nameCap paramsCap bag h1 h2 h3
    unfold parseBlock
    rw [h1]
    dsimp only
    rw [h2]
    dsimp only
    rw [h3]

theorem chat_iteration_ceiling_counterexample :
    (∀ i < maxIterations, extractToolUses jsonParseSample (sampleOracle i) ≠ []) ∧
    cleanResponse (sampleOracle 4) = cs "hello" ∧
    (chat jsonParseSample none sampleOracle (cs "hi") sampleState).1 ≠ cs "hello" := by
  refine ⟨by decide, by decide, by decide⟩

theorem chat_iteration_ceiling_witness :
    checkTokenLimit (updateTokenCount (pushMsg sampleState .user (cs "hi"))) = true ∧
    (∀ i < maxIterations, extractToolUses jsonParseSample (sampleOracle i) ≠ []) ∧
    ((chat jsonParseSample none sampleOracle (cs "hi") sampleState).1 = [] ∧
     (chat jsonParseSample none sampleOracle (cs "hi") sampleState).2.2 = 5) :=
  ⟨by decide, by decide,
   chat_iteration_ceiling jsonParseSample none sampleOracle (cs "hi") sampleState
     (by decide) (by decide)⟩

theorem chat_no_tool_calls_witness :
    checkTokenLimit (updateTokenCount (pushMsg sampleState .user (cs "hi"))) = true ∧
    extractBlocks (samplePlainOracle 0) = [] ∧
    chat jsonParseSample none samplePlainOracle (cs "hi") sampleState =
      (jsTrim (samplePlainOracle 0),
       pushMsg (updateTokenCount (pushMsg sampleState .user (cs "hi")))
         .assistant (samplePlainOracle 0),
       1) :=
  ⟨by decide, by decide,
   (chat_no_tool_calls jsonParseSample none samplePlainOracle (cs "hi") sampleState
     (by decide) (by decide)).1⟩

theorem chat_token_precheck_witness :
    sampleLimitedState.tokenLimit = some 10 ∧ 0 < 10 ∧
    10 ≤ (((sampleLimitedState.history ++
        [({ role := .user, content := cs "hello" } : OllamaMessage)]).map
      (fun m => estimateTokens m.content)).sum) ∧
    (chat jsonParseSample none samplePlainOracle (cs "hello") sampleLimitedState =
      (tokenWarning (updateTokenCount (pushMsg sampleLimitedState .user (cs "hello"))),
       updateTokenCount (pushMsg sampleLimitedState .user (cs "hello")), 0) ∧
     (updateTokenCount (pushMsg sampleLimitedState .user (cs "hello"))).history =
       sampleLimitedState.history ++
         [({ role := .user, content := cs "hello" } : OllamaMessage)]) :=
  ⟨rfl, by decide, by decide,
   chat_token_precheck jsonParseSample none samplePlainOracle (cs "hello")
     sampleLimitedState 10 rfl (by decide) (by decide)⟩

theorem chat_token_precheck_counterexample :
    sampleZeroLimitState.tokenLimit = some 0 ∧
    (0 : Nat) ≤ (((sampleZeroLimitState.history ++
        [({ role := .user, content := cs "hello" } : OllamaMessage)]).map
      (fun m => estimateTokens m.content)).sum) ∧
    (chat jsonParseSample none samplePlainOracle (cs "hello")
      sampleZeroLimitState).2.2 = 1 ∧
    (chat jsonParseSample none samplePlainOracle (cs "hello")
        sampleZeroLimitState).1 ≠
      tokenWarning (updateTokenCount
        (pushMsg sampleZeroLimitState .user (cs "hello"))) := by
  refine ⟨rfl, by decide, by decide, by decide⟩

theorem saveLoad_counterexample :
    (loadConversation (saveConversation (cs "/root/.occ-conversations") []
        sampleStaleState (cs "2026-01-01") (cs "s")).1
      sampleStaleState (cs "s")).1.estimatedTokens ≠
      (((loadConversation (saveConversation (cs "/root/.occ-conversations") []
          sampleStaleState (cs "2026-01-01") (cs "s")).1
        sampleStaleState (cs "s")).1.history).map
          (fun m => estimateTokens m.content)).sum := by decide

theorem findTool_last_wins_counterexample :
    samplePluginTool.name = sampleBuiltinTool.name ∧
    (findTool (getAvailableTools [sampleBuiltinTool] [samplePluginTool])
      (cs "plugin_hello")).map (fun t => t.description) = some (cs "built-in") ∧
    (findTool (getAvailableTools [sampleBuiltinTool] [samplePluginTool])
        (cs "plugin_hello")).map (fun t => t.description) ≠
      some samplePluginTool.description := by
  refine ⟨by decide, by decide, by decide⟩

theorem findTool_first_match_witness :
    (∀ u ∈ ([] : List Tool), u.name ≠ sampleBuiltinTool.name) ∧
    findTool (getAvailableTools ([] ++ sampleBuiltinTool :: [])
      [samplePluginTool]) sampleBuiltinTool.name = some sampleBuiltinTool :=
  ⟨by simp,
   findTool_first_match [] sampleBuiltinTool [] [samplePluginTool] (by simp)⟩

theorem isDangerousCommand_characterization_witness :
    dangerousTools.contains (cs "read_file") = false ∧
    isDangerousCommand true (cs "read_file")
      [(cs "file_path", cs "/etc/passwd")] = false :=
  ⟨by decide,
   isDangerousCommand_characterization.2.1 (cs "read_file")
     [(cs "file_path", cs "/etc/passwd")] (by decide)⟩

theorem runBatch_denied_isolation_witness :
    findTool sampleConfirmState.tools sampleDangerousUse.name = some sampleExecTool ∧
    deniedBy sampleConfirmState sampleDangerousUse sampleDenyCb = true ∧
    (runBatch sampleDenyCb sampleConfirmState
        ([] ++ sampleDangerousUse :: [sampleReadUse]) =
      ((runBatch sampleDenyCb sampleConfirmState []).1 ++
        (cs "Tool '" ++ sampleDangerousUse.name ++
          cs "' execution cancelled by user") ::
          (runBatch sampleDenyCb (runBatch sampleDenyCb sampleConfirmState []).2
            [sampleReadUse]).1,
       (runBatch sampleDenyCb (runBatch sampleDenyCb sampleConfirmState []).2
         [sampleReadUse]).2) ∧
     (runBatch sampleDenyCb sampleConfirmState
       ([] ++ sampleDangerousUse :: [sampleReadUse])).1.length =
       ([] : List ToolUse).length + 1 + [sampleReadUse].length) :=
  ⟨rfl, by decide,
   runBatch_denied_isolation sampleDenyCb sampleConfirmState [] [sampleReadUse]
     sampleDangerousUse sampleExecTool rfl (by decide)⟩

set_option maxRecDepth 10000 in
theorem extractToolUses_characterization_witness :
    CleanParts (cs "pre ") sampleBps ∧
    extractToolUses jsonParseSample (interleave (cs "pre ") sampleBps) =
      (sampleBps.map (fun bp => bp.1)).filterMap (parseBlock jsonParseSample) ∧
    (extractToolUses jsonParseSample (interleave (cs "pre ") sampleBps)).map
      (fun tu => tu.name) = [cs "read_file"] :=
  ⟨by decide,
   (extractToolUses_characterization jsonParseSample (cs "pre ") sampleBps
     (by decide)).1,
   by decide⟩

set_option maxRecDepth 10000 in
theorem cleanResponse_interleave_witness :
    CleanParts (cs " Here: ") [(sampleBlockGood, cs " done ")] ∧
    cleanResponse (interleave (cs " Here: ") [(sampleBlockGood, cs " done ")]) =
      jsTrim (cs " Here: " ++
        (([(sampleBlockGood, cs " done ")]).map (fun bp => bp.2)).flatten) :=
  ⟨by decide,
   cleanResponse_interleave (cs " Here: ") [(sampleBlockGood, cs " done ")]
     (by decide)⟩

set_option maxRecDepth 10000 in
theorem cleanResponse_counterexample :
    interleave (cs " a ") [(cs "x", [])] = cs " a <tool_use>x</tool_use>" ∧
    CleanParts (cs " a ") [(cs "x", [])] ∧
    cleanResponse (cs " a <tool_use>x</tool_use>") = cs "a" ∧
    cs "a" ≠ cs " a " ++ (([(cs "x", ([] : List Char))]).map
      (fun bp => bp.2)).flatten := by
  refine ⟨by decide, by decide, by decide, by decide⟩
